import Mathlib

/-!
Shallow embedding of `loopover.go` (netux/go-loopover-challenge).

The Go board is `type Board [][]int`, indexed `b[x][y]` with
`x ∈ [0, width)` the column and `y ∈ [0, height)` the position inside the
column (the row).  We embed it as a list of columns.  Go strings are
embedded as lists of runes (`List Char`); the Go code mixes byte and rune
positions, which coincide on ASCII input, and the apostrophe / separator
checks compare ASCII bytes that can never occur inside a multi-byte rune,
so the rune-level model agrees with the byte-level code on the inputs the
grammar accepts.  Go `int` values are embedded as unbounded `Int`
(`strconv.Atoi`'s 64-bit range error is not modelled).
-/

/-- `type Axis bool`. -/
abbrev Axis := Bool

/-- `HorizontalAxis = iota == 0` with `iota = 0`, i.e. `true`. -/
def HorizontalAxis : Axis := true

/-- `VerticalAxis` repeats `iota == 0` with `iota = 1`, i.e. `false`. -/
def VerticalAxis : Axis := false

/-- `type Board [][]int`: a list of `width` columns, each of `height` cells. -/
abbrev Board := List (List Int)

/-- `func (b *Board) Width() int { return cap(*b) }` — for boards built by
`NewBoard` the capacity equals the length. -/
def Board.width (b : Board) : Nat := b.length

/-- `func (b *Board) Height() int { return cap((*b)[0]) }` — the capacity of
the first column, which equals its length for boards built by `NewBoard`. -/
def Board.height (b : Board) : Nat := (b.getD 0 []).length

/-- Read `(*b)[x][y]`. -/
def Board.getCell (b : Board) (x y : Nat) : Int := (b.getD x []).getD y 0

/-- Write `(*b)[x][y] = v`. -/
def Board.setCell (b : Board) (x y : Nat) (v : Int) : Board :=
  b.set x ((b.getD x []).set y v)

/-- `func (b *Board) defaultTileValue(x, y int) int { return x + y*b.Width() + 1 }`. -/
def Board.defaultTileValue (b : Board) (x y : Nat) : Int :=
  (x : Int) + (y : Int) * (b.width : Int) + 1

/-- The board `NewBoard` builds: column `x` holds `x + y*width + 1` at
position `y` (`resetTile` applied to every cell of a fresh `width × height`
allocation). -/
def mkSolved (width height : Nat) : Board :=
  (List.range width).map fun (x : Nat) =>
    (List.range height).map fun (y : Nat) => (x : Int) + (y : Int) * (width : Int) + 1

/-- `func NewBoard(width, height int) (Board, error)`: rejects `width <= 1`
and `height <= 1`, otherwise allocates the board and sets every tile to its
default value. -/
def NewBoard (width height : Int) : Option Board :=
  if width ≤ 1 then none
  else if height ≤ 1 then none
  else some (mkSolved width.toNat height.toNat)

/-- `func (b *Board) Reset()`: writes `defaultTileValue(x, y)` into every
cell `x < b.Width()`, `y < b.Height()`, which on a rectangular board yields
exactly the solved board of the same dimensions. -/
def Board.Reset (b : Board) : Board := mkSolved b.width b.height

/-- `func (b *Board) IsSolved() bool`: every cell equals its default value. -/
def Board.IsSolved (b : Board) : Bool :=
  (List.range b.width).all fun x =>
    (List.range b.height).all fun y =>
      b.getCell x y == b.defaultTileValue x y

/-- One forward unit rotation of a line (`p := line[last]` then a left-to-right
swap sweep): the last value moves to position 0 and every other value shifts
one position up. -/
def rotF (l : List Int) : List Int :=
  match l.reverse with
  | [] => []
  | x :: xs => x :: xs.reverse

/-- One backward unit rotation of a line (`p := line[0]` then a right-to-left
swap sweep): the first value moves to the last position and every other value
shifts one position down. -/
def rotB (l : List Int) : List Int :=
  match l with
  | [] => []
  | x :: xs => xs ++ [x]

/-- `type Move struct { Axis Axis; Index int; Amount int }`. -/
structure Move where
  Axis : Axis
  Index : Int
  Amount : Int
deriving Repr, DecidableEq

/-- The current values of row `y` left to right: `board[x][y]` for `x` from
`0` to `width - 1`. -/
def Board.row (b : Board) (y : Nat) : List Int := b.map fun col => col.getD y 0

/-- One iteration of `MakeMove`'s outer loop: a single-step cyclic rotation of
the target line.  A `HorizontalAxis` move rewrites `board[x][Index]` for every
column `x` with the rotated row; a `VerticalAxis` move rewrites the column
`board[Index]` with its rotation. -/
def lineStep (axis : Axis) (index : Nat) (forward : Bool) (b : Board) : Board :=
  let rot := if forward then rotF else rotB
  if axis = HorizontalAxis then
    List.zipWith (fun col v => col.set index v) b (rot (b.row index))
  else
    b.set index (rot (b.getD index []))

/-- `func (b *Board) MakeMove(m *Move) int`: performs `Abs(m.Amount)` single
unit rotations of the chosen line, forward iff `m.Amount > 0`, and returns
`Abs(m.Amount)`. -/
def Board.MakeMove (b : Board) (m : Move) : Board × Nat :=
  (Nat.iterate (lineStep m.Axis m.Index.toNat (m.Amount > 0)) m.Amount.natAbs b,
   m.Amount.natAbs)

/-- The board is a `width × height` rectangle. -/
def WellFormed (w h : Nat) (b : Board) : Prop :=
  b.length = w ∧ ∀ col ∈ b, col.length = h

instance (w h : Nat) (b : Board) : Decidable (WellFormed w h b) := by
  unfold WellFormed; infer_instance

/-- A `Move` validated against a `w × h` board, as `ParseMove` guarantees:
`Index` is in `[0, dimension)` for the chosen axis. -/
def MoveValid (w h : Nat) (m : Move) : Prop :=
  0 ≤ m.Index ∧ (if m.Axis = HorizontalAxis then m.Index < (h : Int) else m.Index < (w : Int))

instance (w h : Nat) (m : Move) : Decidable (MoveValid w h m) := by
  unfold MoveValid; infer_instance

/-- Swap `board[x1][y1]` and `board[x2][y2]` (the parallel assignment at
line 105 of `loopover.go`: both cells are read before either is written). -/
def swapCells (b : Board) (x1 y1 x2 y2 : Nat) : Board :=
  let v1 := b.getCell x1 y1
  let v2 := b.getCell x2 y2
  (b.setCell x1 y1 v2).setCell x2 y2 v1

/-- The exit condition of `FastShuffle`'s retry loop: the loop keeps drawing
`x2, y2` while `x1 == x2 || y1 == y2`, so a draw is accepted iff that
disjunction is false. -/
def swapPickOk (x1 y1 x2 y2 : Nat) : Bool := !(x1 == x2 || y1 == y2)

/-- `func (b *Board) FastShuffle()`: for every cell `(x1, y1)` in scan order
(`x1` outer, `y1` inner), swap it with the cell the retry loop settles on.
The random draws are abstracted into the oracle `pick`, which returns the
accepted `(x2, y2)` for each `(x1, y1)`; the loop bounds `b.Width()` and
`b.Height()` are constant because swaps never change the slice lengths. -/
def Board.FastShuffle (pick : Nat → Nat → Nat × Nat) (b : Board) : Board :=
  (List.range b.width).foldl
    (fun acc x1 =>
      (List.range b.height).foldl
        (fun acc2 y1 => swapCells acc2 x1 y1 (pick x1 y1).1 (pick x1 y1).2)
        acc)
    b

/-- `func (b *Board) Shuffle(iterations int) int`: if `iterations == 0` it is
replaced by `b.Width() + b.Height()`; then `for moves = 0; moves < iterations;
moves++` applies one generated move per iteration and the final `moves` is
returned (`0` when `iterations` is negative).  The random move of iteration
`i` is abstracted into the oracle `gen`. -/
def Board.Shuffle (gen : Nat → Move) (b : Board) (iterations : Int) : Board × Int :=
  let iters := if iterations = 0 then ((b.width + b.height : Nat) : Int) else iterations
  let n := iters.toNat
  ((List.range n).foldl (fun acc i => (acc.MakeMove (gen i)).1) b, (n : Int))

/-- The apostrophe character `'` (byte 39), the reverse-index indicator. -/
def apostrophe : Char := Char.ofNat 39

/-- The numeric value of a nonempty all-digit string, `none` otherwise
(helper for `atoi`). -/
def digitsVal (s : List Char) : Option Nat :=
  if s.isEmpty then none
  else s.foldl
    (fun acc c => acc.bind fun n => if c.isDigit then some (10 * n + (c.toNat - 48)) else none)
    (some 0)

/-- `strconv.Atoi`: an optional `+`/`-` sign followed by at least one ASCII
digit.  Go additionally rejects values outside the 64-bit `int` range; the
embedding keeps the value unbounded. -/
def atoi (s : List Char) : Option Int :=
  match s with
  | [] => none
  | c :: rest =>
    if c = '-' then (digitsVal rest).map fun n => -(n : Int)
    else if c = '+' then (digitsVal rest).map fun n => (n : Int)
    else (digitsVal (c :: rest)).map fun n => (n : Int)

/-- The distinct error return sites of `ParseMove`, in source order. -/
inductive MoveError where
  | emptyInput | missingAxis | invalidAxis | missingAmount | invalidAmount
  | zeroAmount | missingIndex | invalidIndex | negativeIndex | indexTooLarge
deriving Repr, DecidableEq

/-- The `switch unicode.ToLower(c)` on the axis marker: `r`/`R` is the
horizontal axis, `c`/`C` the vertical one, anything else the `default`
error branch. -/
def parseAxisChar (c : Char) : Option Axis :=
  if c.toLower = 'r' then some HorizontalAxis
  else if c.toLower = 'c' then some VerticalAxis
  else none

/-- The dimension `ParseMove` measures the index against: `board.Width()`
for the horizontal axis and `board.Height()` for the vertical one (used both
by the reverse-index transform and by the bounds check). -/
def dimension (b : Board) (axis : Axis) : Int :=
  if axis = HorizontalAxis then (b.width : Int) else (b.height : Int)

/-- The `reverseIndex` flag: the last character of the whole input is an
apostrophe (`input[len(input)-1] == '\''`). -/
def revFlag (input : List Char) : Bool := input.getLast? == some apostrophe

/-- The index substring `input[ai+1:]`, with the trailing apostrophe
stripped when the `reverseIndex` flag is set. -/
def idxSubstr (input : List Char) (ai : Nat) : List Char :=
  if revFlag input then (input.drop (ai + 1)).dropLast else input.drop (ai + 1)

/-- The index after the optional reverse-index transform
`index = dimension - 1 - index`. -/
def finalIndex (input : List Char) (b : Board) (axis : Axis) (i0 : Int) : Int :=
  if revFlag input then dimension b axis - 1 - i0 else i0

/-- Continuation of `ParseMove` from the index-substring stage (lines
252-297 of `loopover.go`): emptiness check, apostrophe stripping, `Atoi`,
reverse-index transform and the two bounds checks. -/
def parseMoveIndexStage (input : List Char) (b : Board) (ai : Nat) (axis : Axis)
    (amount : Int) : Except MoveError Move :=
  if (input.drop (ai + 1)).length = 0 then .error .missingIndex else
  match atoi (idxSubstr input ai) with
  | none => .error .invalidIndex
  | some i0 =>
    if finalIndex input b axis i0 < 0 then .error .negativeIndex else
    if dimension b axis ≤ finalIndex input b axis i0 then .error .indexTooLarge else
    .ok ⟨axis, finalIndex input b axis i0, amount⟩

/-- Continuation of `ParseMove` from the amount stage (lines 236-250 of
`loopover.go`): emptiness check, `Atoi` and the zero check. -/
def parseMoveAmountStage (input : List Char) (b : Board) (ai : Nat) (axis : Axis) :
    Except MoveError Move :=
  if (input.take ai).length = 0 then .error .missingAmount else
  match atoi (input.take ai) with
  | none => .error .invalidAmount
  | some amount =>
    if amount = 0 then .error .zeroAmount else
    parseMoveIndexStage input b ai axis amount

/-- `func ParseMove(input string, board *Board) (*Move, error)`.  Positions
are rune positions (Go mixes byte and rune indices, which agree on ASCII
input); the trailing-apostrophe test compares the last character of the whole
input, exactly as the byte test `input[len(input)-1] == '\''` does. -/
def ParseMove (input : List Char) (b : Board) : Except MoveError Move :=
  if input.length = 0 then .error .emptyInput else
  match input.findIdx? Char.isAlpha with
  | none => .error .missingAxis
  | some ai =>
    match parseAxisChar (input.getD ai ' ') with
    | none => .error .invalidAxis
    | some axis => parseMoveAmountStage input b ai axis

/-- The distinct error return sites of `ParseTwoDimensions`, in source order:
the empty-input check, the missing-separator check, and the two `Atoi`
failures. -/
inductive DimError where
  | emptyInput | noSeparator | invalidWidth | invalidHeight
deriving Repr, DecidableEq

/-- `func ParseTwoDimensions(input string) (width, height int, err error)`:
split at the first occurrence of `x`, `X` or `*` (`strings.IndexAny`), parse
both sides with `Atoi`. -/
def ParseTwoDimensions (input : List Char) : Except DimError (Int × Int) :=
  if input.length = 0 then .error .emptyInput else
  match input.findIdx? (fun c => c == 'x' || c == 'X' || c == '*') with
  | none => .error .noSeparator
  | some i =>
    match atoi (input.take i) with
    | none => .error .invalidWidth
    | some w =>
      match atoi (input.drop (i + 1)) with
      | none => .error .invalidHeight
      | some h => .ok (w, h)

/-- The multiset of all cell values of the board. -/
def Board.cells (b : Board) : Multiset Int :=
  (b.map fun (col : List Int) => (col : Multiset Int)).sum

/-- The multiset `{1, …, w·h}`, each value once. -/
def solvedCells (w h : Nat) : Multiset Int :=
  (((List.range (w * h)).map fun (k : Nat) => (k : Int) + 1 : List Int) : Multiset Int)

section ListHelpers

variable {α : Type _}

theorem getD_set_self (l : List α) (i : Nat) (a d : α) (h : i < l.length) :
    (l.set i a).getD i d = a := by
  rw [List.getD_eq_getElem?_getD, List.getElem?_set_eq_of_lt _ h]; rfl

theorem getD_set_ne (l : List α) (i j : Nat) (a d : α) (h : i ≠ j) :
    (l.set i a).getD j d = l.getD j d := by
  simp [List.getD_eq_getElem?_getD, List.getElem?_set_ne h]

theorem set_getD_self (l : List α) :
    ∀ i, i < l.length → ∀ d, l.set i (l.getD i d) = l := by
  induction l with
  | nil => intro i h; simp at h
  | cons x xs ih =>
    intro i h d
    cases i with
    | zero => simp
    | succ j => simpa using ih j (by simpa using h) d

theorem getD_map_lt {β : Type _} (f : α → β) (l : List α) (x : Nat) (d : β) (d' : α)
    (hx : x < l.length) : (l.map f).getD x d = f (l.getD x d') := by
  simp [List.getD_eq_getElem?_getD, List.getElem?_map, List.getElem?_eq_getElem hx]

theorem getD_mem_of_lt (l : List α) (i : Nat) (d : α) (h : i < l.length) :
    l.getD i d ∈ l := by
  rw [List.getD_eq_getElem?_getD, List.getElem?_eq_getElem h]
  exact List.getElem_mem h

end ListHelpers

theorem rotF_concat (xs : List Int) (x : Int) : rotF (xs ++ [x]) = x :: xs := by
  simp [rotF]

theorem rotB_cons (x : Int) (xs : List Int) : rotB (x :: xs) = xs ++ [x] := rfl

theorem rotF_length (l : List Int) : (rotF l).length = l.length := by
  rcases List.eq_nil_or_concat l with rfl | ⟨xs, x, rfl⟩
  · rfl
  · simp [List.concat_eq_append, rotF_concat]

theorem rotB_length (l : List Int) : (rotB l).length = l.length := by
  cases l <;> simp [rotB]

theorem rotB_rotF (l : List Int) : rotB (rotF l) = l := by
  rcases List.eq_nil_or_concat l with rfl | ⟨xs, x, rfl⟩
  · rfl
  · simp [List.concat_eq_append, rotF_concat, rotB_cons]

theorem rotF_rotB (l : List Int) : rotF (rotB l) = l := by
  cases l with
  | nil => rfl
  | cons x xs => rw [rotB_cons, rotF_concat]

theorem width_mkSolved (W H : Nat) : (mkSolved W H).width = W := by
  simp [mkSolved, Board.width]

theorem height_mkSolved (W H : Nat) (hW : 0 < W) : (mkSolved W H).height = H := by
  simp [mkSolved, Board.height, List.getD_eq_getElem?_getD, List.getElem?_map,
    List.getElem?_range hW]

theorem getCell_mkSolved (W H x y : Nat) (hx : x < W) (hy : y < H) :
    (mkSolved W H).getCell x y = (x : Int) + (y : Int) * (W : Int) + 1 := by
  simp [mkSolved, Board.getCell, List.getD_eq_getElem?_getD, List.getElem?_map,
    List.getElem?_range hx, List.getElem?_range hy]

theorem wellFormed_mkSolved (W H : Nat) : WellFormed W H (mkSolved W H) := by
  constructor
  · simp [mkSolved]
  · intro col hcol
    simp only [mkSolved, List.mem_map] at hcol
    obtain ⟨x, -, rfl⟩ := hcol
    simp

/-- C9: `NewBoard` fails exactly when `width ≤ 1` or `height ≤ 1`; on success
every cell `(x, y)` holds its solved value `x + y·width + 1` and `IsSolved`
returns `true`. -/
theorem c9_newBoard_solved (w h : Int) :
    ((NewBoard w h).isNone ↔ w ≤ 1 ∨ h ≤ 1) ∧
    ∀ b, NewBoard w h = some b →
      (∀ x y : Nat, x < w.toNat → y < h.toNat →
        b.getCell x y = (x : Int) + (y : Int) * w + 1) ∧
      b.IsSolved = true := by
  constructor
  · unfold NewBoard
    split_ifs with h1 h2
    · simp [h1]
    · simp [h1, h2]
    · simp [h1, h2]
  · intro b hb
    unfold NewBoard at hb
    split_ifs at hb with h1 h2
    obtain rfl : mkSolved w.toNat h.toNat = b := by injection hb
    push_neg at h1 h2
    have hw : ((w.toNat : Int)) = w := Int.toNat_of_nonneg (by omega)
    constructor
    · intro x y hx hy
      rw [getCell_mkSolved _ _ _ _ hx hy, hw]
    · unfold Board.IsSolved
      rw [List.all_eq_true]
      intro x hx
      rw [List.all_eq_true]
      intro y hy
      rw [List.mem_range, width_mkSolved] at hx
      rw [List.mem_range, height_mkSolved _ _ (by omega)] at hy
      have := getCell_mkSolved w.toNat h.toNat x y hx hy
      simp only [beq_iff_eq, this, Board.defaultTileValue, width_mkSolved]

/-- Witness for C9 at `w = h = 3`. -/
theorem c9_newBoard_solved_witness :
    Board.getCell [[1, 4, 7], [2, 5, 8], [3, 6, 9]] 1 2 = 8 ∧
    Board.IsSolved [[1, 4, 7], [2, 5, 8], [3, 6, 9]] = true := by
  have hb := (c9_newBoard_solved 3 3).2 [[1, 4, 7], [2, 5, 8], [3, 6, 9]] (by decide)
  exact ⟨(hb.1 1 2 (by decide) (by decide)).trans (by norm_num), hb.2⟩

theorem getD_append_lt {α : Type _} (xs ys : List α) (i : Nat) (d : α) (h : i < xs.length) :
    (xs ++ ys).getD i d = xs.getD i d := by
  simp [List.getD_eq_getElem?_getD, List.getElem?_append, h]

theorem getD_append_length {α : Type _} (xs : List α) (x d : α) :
    (xs ++ [x]).getD xs.length d = x := by
  simp [List.getD_eq_getElem?_getD, List.getElem?_append_right]

theorem rotF_getD_zero (l : List Int) (d : Int) (hl : l ≠ []) :
    (rotF l).getD 0 d = l.getD (l.length - 1) d := by
  rcases List.eq_nil_or_concat l with rfl | ⟨xs, x, rfl⟩
  · exact absurd rfl hl
  · simp only [List.concat_eq_append, rotF_concat, List.getD_cons_zero, List.length_append,
      List.length_cons, List.length_nil]
    rw [show xs.length + (0 + 1) - 1 = xs.length by omega, getD_append_length]

theorem rotF_getD_succ (l : List Int) (i : Nat) (d : Int) (hi : i + 1 < l.length) :
    (rotF l).getD (i + 1) d = l.getD i d := by
  rcases List.eq_nil_or_concat l with rfl | ⟨xs, x, rfl⟩
  · simp at hi
  · simp only [List.concat_eq_append, rotF_concat, List.getD_cons_succ]
    rw [getD_append_lt]
    simp only [List.concat_eq_append, List.length_append, List.length_cons,
      List.length_nil] at hi
    omega

theorem row_length (b : Board) (idx : Nat) : (b.row idx).length = b.length := by
  simp [Board.row]

theorem zipWith_set_getD (b : Board) (idx : Nat) :
    ∀ (r : List Int) (x : Nat), x < b.length → x < r.length →
      (List.zipWith (fun col v => col.set idx v) b r).getD x [] =
        (b.getD x []).set idx (r.getD x 0) := by
  induction b with
  | nil => intro r x hx _; simp at hx
  | cons col bs ih =>
    intro r x hx hr
    cases r with
    | nil => simp at hr
    | cons v rs =>
      cases x with
      | zero => simp
      | succ j => simpa using ih rs j (by simpa using hx) (by simpa using hr)

theorem lineStep_horiz (idx : Nat) (forward : Bool) (b : Board) :
    lineStep HorizontalAxis idx forward b =
      List.zipWith (fun col v => col.set idx v) b
        ((if forward then rotF else rotB) (b.row idx)) := by
  simp [lineStep, HorizontalAxis]

theorem lineStep_vert (idx : Nat) (forward : Bool) (b : Board) :
    lineStep VerticalAxis idx forward b =
      b.set idx ((if forward then rotF else rotB) (b.getD idx [])) := by
  simp [lineStep, VerticalAxis, HorizontalAxis]

/-- C1: `MakeMove` performs `|amount|` single-step cyclic rotations of the
chosen line and returns `|amount|`; a forward unit rotation of a row carries
the last column's value into the first column and shifts every other value
one column to the right; on a solved 3×3 board the move "1R0" turns row 0
into `[3, 1, 2]`, and on a solved 5×5 board the move "2C0" turns column 0
into `[16, 21, 1, 6, 11]`. -/
theorem c1_makeMove_unit_rotations :
    (∀ (b : Board) (m : Move),
        (b.MakeMove m).2 = m.Amount.natAbs ∧
        (b.MakeMove m).1 =
          Nat.iterate (lineStep m.Axis m.Index.toNat (m.Amount > 0)) m.Amount.natAbs b) ∧
    (∀ (w h : Nat) (b : Board) (idx : Nat), WellFormed w h b → idx < h → 0 < w →
        (lineStep HorizontalAxis idx true b).getCell 0 idx = b.getCell (w - 1) idx ∧
        ∀ x, x + 1 < w →
          (lineStep HorizontalAxis idx true b).getCell (x + 1) idx = b.getCell x idx) ∧
    ((mkSolved 3 3).MakeMove ⟨HorizontalAxis, 0, 1⟩).1.row 0 = [3, 1, 2] ∧
    ((mkSolved 5 5).MakeMove ⟨VerticalAxis, 0, 2⟩).1.getD 0 [] = [16, 21, 1, 6, 11] := by
  refine ⟨fun b m => ⟨rfl, rfl⟩, ?_, by decide, by decide⟩
  intro w h b idx hwf hidx hw
  obtain ⟨hlen, hcols⟩ := hwf
  have hr : (b.row idx).length = b.length := row_length b idx
  have hrot : (rotF (b.row idx)).length = b.length := by rw [rotF_length, hr]
  have key : ∀ X, X < b.length →
      (lineStep HorizontalAxis idx true b).getCell X idx = (rotF (b.row idx)).getD X 0 := by
    intro X hX
    rw [lineStep_horiz, if_pos rfl]
    unfold Board.getCell
    rw [zipWith_set_getD b idx _ X hX (by rw [hrot]; exact hX)]
    exact getD_set_self _ idx _ 0 (by rw [hcols _ (getD_mem_of_lt b X [] hX)]; exact hidx)
  constructor
  · rw [key 0 (by omega)]
    rw [rotF_getD_zero _ _ (by
      intro hnil
      rw [hnil] at hr
      simp at hr
      omega)]
    rw [hr, hlen]
    exact getD_map_lt _ b (w - 1) 0 [] (by omega)
  · intro x hx
    rw [key (x + 1) (by omega)]
    rw [rotF_getD_succ _ x 0 (by rw [hr, hlen]; exact hx)]
    exact getD_map_lt _ b x 0 [] (by omega)

/-- Witness for C1's unit-rotation description on the solved 3×3 board. -/
theorem c1_makeMove_unit_rotations_witness :
    (lineStep HorizontalAxis 0 true (mkSolved 3 3)).getCell 0 0 = (mkSolved 3 3).getCell 2 0 ∧
    (lineStep HorizontalAxis 0 true (mkSolved 3 3)).getCell 2 0 = (mkSolved 3 3).getCell 1 0 := by
  have h := c1_makeMove_unit_rotations.2.1 3 3 (mkSolved 3 3) 0 (by decide) (by decide) (by decide)
  exact ⟨h.1, h.2 1 (by decide)⟩

/-- C6 (failing input): `Shuffle` substitutes `width + height` only when
`iterations == 0`; for the negative iteration count `-1` on a 5×5 board the
loop body never runs, the board is returned unchanged and the reported count
is `0`, not the substituted `width + height = 10`.  With `iterations = 0` the
substitution does happen and the returned count is `10`. -/
theorem c6_shuffle_negative_iterations :
    ((mkSolved 5 5).Shuffle (fun _ => ⟨HorizontalAxis, 0, 1⟩) (-1)).2 = 0 ∧
    ((mkSolved 5 5).Shuffle (fun _ => ⟨HorizontalAxis, 0, 1⟩) (-1)).1 = mkSolved 5 5 ∧
    ((mkSolved 5 5).Shuffle (fun _ => ⟨HorizontalAxis, 0, 1⟩) 0).2 = 10 := by
  refine ⟨rfl, rfl, rfl⟩

/-- C7 (failing input): the retry loop of `FastShuffle` keeps drawing while
`x1 == x2 || y1 == y2`, so for the cell `(0, 0)` the candidate partners
`(0, 1)` and `(1, 0)` — cells that differ in exactly one coordinate — are
rejected, and only partners differing in both coordinates, such as `(1, 1)`,
are accepted. -/
theorem c7_swap_partner_condition :
    swapPickOk 0 0 0 1 = false ∧ swapPickOk 0 0 1 0 = false ∧
    swapPickOk 0 0 1 1 = true := by decide

/-- C8 counterexample: on the empty string `ParseTwoDimensions` fails with
its dedicated empty-input error, which is a different error than
`NoSeparator`, although the empty string contains none of `x`, `X`, `*`. -/
theorem c8_empty_input_counterexample :
    ParseTwoDimensions [] = Except.error DimError.emptyInput ∧
    DimError.emptyInput ≠ DimError.noSeparator := by
  exact ⟨rfl, by decide⟩

/-- C8 (amended): `ParseTwoDimensions` fails with a dedicated empty-input
error on the empty string; on nonempty input it splits at the first
occurrence of `x`, `X` or `*`, failing with `NoSeparator` when none occurs,
with `InvalidWidth`/`InvalidHeight` when the respective side does not parse,
and succeeding with the two parsed values otherwise (no `> 1` check);
`"5x5"`, `"5X5"`, `"5*5"` all yield `(5, 5)`, `"0x0"` yields `(0, 0)` and
`"5-5"` fails with `NoSeparator`. -/
theorem c8_parseTwoDimensions (input : List Char) :
    (input = [] → ParseTwoDimensions input = .error .emptyInput) ∧
    (input ≠ [] → input.findIdx? (fun c => c == 'x' || c == 'X' || c == '*') = none →
      ParseTwoDimensions input = .error .noSeparator) ∧
    (∀ i, input.findIdx? (fun c => c == 'x' || c == 'X' || c == '*') = some i →
      (atoi (input.take i) = none → ParseTwoDimensions input = .error .invalidWidth) ∧
      ∀ wv, atoi (input.take i) = some wv →
        (atoi (input.drop (i + 1)) = none →
          ParseTwoDimensions input = .error .invalidHeight) ∧
        ∀ hv, atoi (input.drop (i + 1)) = some hv →
          ParseTwoDimensions input = .ok (wv, hv)) ∧
    ParseTwoDimensions "5x5".toList = .ok (5, 5) ∧
    ParseTwoDimensions "5X5".toList = .ok (5, 5) ∧
    ParseTwoDimensions "5*5".toList = .ok (5, 5) ∧
    ParseTwoDimensions "0x0".toList = .ok (0, 0) ∧
    ParseTwoDimensions "5-5".toList = .error .noSeparator := by
  refine ⟨?_, ?_, ?_, rfl, rfl, rfl, rfl, rfl⟩
  · intro h; subst h; rfl
  · intro hne hnone
    have hlen : ¬input.length = 0 := by simpa [List.length_eq_zero] using hne
    simp [ParseTwoDimensions, hlen, hnone]
  · intro i hi
    have hlen : ¬input.length = 0 := by
      intro h0
      rw [List.length_eq_zero] at h0
      subst h0
      simp at hi
    refine ⟨fun hw => by simp [ParseTwoDimensions, hlen, hi, hw], ?_⟩
    intro wv hwv
    refine ⟨fun hh => by simp [ParseTwoDimensions, hlen, hi, hwv, hh], ?_⟩
    intro hv hhv
    simp [ParseTwoDimensions, hlen, hi, hwv, hhv]

/-- Witness for C8 at the input `"5X5"`. -/
theorem c8_parseTwoDimensions_witness :
    ParseTwoDimensions "5X5".toList = .ok (5, 5) := by
  have h := (c8_parseTwoDimensions "5X5".toList).2.2.1 1 (by decide)
  exact ((h.2 5 (by decide)).2 5 (by decide))

/-- C5 counterexample: for the input `"1r'"` the index substring is empty
after stripping the apostrophe, and `ParseMove` fails with the invalid-index
error (the `Atoi` failure on the empty string), not with the missing-index
error: the emptiness check runs before the apostrophe is stripped. -/
theorem c5_empty_after_strip_counterexample :
    ParseMove "1r'".toList (mkSolved 5 5) = .error .invalidIndex ∧
    MoveError.invalidIndex ≠ MoveError.missingIndex := ⟨rfl, by decide⟩

/-- C5 (amended): for every input ending in an apostrophe that reaches the
index stage, `ParseMove` strips the apostrophe; if the stripped index
substring is empty the parse fails with `InvalidIndex` (the empty substring
is not numeric — `MissingIndex` only fires when the substring after the axis
marker is empty before stripping); otherwise a successfully parsed move
carries `dimension − 1 − i` (width for Row, height for Column) as its index.
On a width-5 grid, `"1r0'"` yields the Row move with index `4`. -/
theorem atoi_nil : atoi [] = none := rfl

theorem ParseMove_stages (input : List Char) (b : Board) (ai : Nat) (axis : Axis)
    (hne : ¬input.length = 0)
    (hai : input.findIdx? Char.isAlpha = some ai)
    (haxis : parseAxisChar (input.getD ai ' ') = some axis) :
    ParseMove input b = parseMoveAmountStage input b ai axis := by
  unfold ParseMove
  simp only [if_neg hne, hai, haxis]

theorem parseMoveAmountStage_eq (input : List Char) (b : Board) (ai : Nat) (axis : Axis)
    (amount : Int)
    (htake : ¬(input.take ai).length = 0)
    (hamt : atoi (input.take ai) = some amount)
    (hamt0 : ¬amount = 0) :
    parseMoveAmountStage input b ai axis = parseMoveIndexStage input b ai axis amount := by
  unfold parseMoveAmountStage
  simp only [if_neg htake, hamt, if_neg hamt0]

theorem c5_reverse_index (input : List Char) (b : Board) (ai : Nat) (axis : Axis) (amount : Int)
    (hlast : input.getLast? = some apostrophe)
    (hai : input.findIdx? Char.isAlpha = some ai)
    (haxis : parseAxisChar (input.getD ai ' ') = some axis)
    (hai0 : ai ≠ 0)
    (hamt : atoi (input.take ai) = some amount)
    (hamt0 : amount ≠ 0)
    (hidx : input.drop (ai + 1) ≠ []) :
    ((input.drop (ai + 1)).dropLast = [] → ParseMove input b = .error .invalidIndex) ∧
    (∀ i0 m, atoi ((input.drop (ai + 1)).dropLast) = some i0 → ParseMove input b = .ok m →
      m.Index = dimension b axis - 1 - i0) ∧
    ParseMove "1r0'".toList (mkSolved 5 5) = .ok ⟨HorizontalAxis, 4, 1⟩ := by
  have hne : ¬input.length = 0 := by
    intro h0
    rw [List.length_eq_zero] at h0
    subst h0
    simp at hai
  have hrev : revFlag input = true := by simp [revFlag, hlast]
  have htake : ¬(input.take ai).length = 0 := by
    have hlt : ai < input.length := (List.findIdx?_eq_some_iff_findIdx_eq.mp hai).1
    simp only [List.length_take]
    omega
  have hidx' : ¬(input.drop (ai + 1)).length = 0 := by
    intro h0
    rw [List.length_eq_zero] at h0
    exact hidx h0
  have hP : ParseMove input b = parseMoveIndexStage input b ai axis amount := by
    rw [ParseMove_stages input b ai axis hne hai haxis,
      parseMoveAmountStage_eq input b ai axis amount htake hamt hamt0]
  refine ⟨?_, ?_, rfl⟩
  · intro hstrip
    rw [hP]
    unfold parseMoveIndexStage
    rw [if_neg hidx']
    simp [idxSubstr, hrev, hstrip, atoi_nil]
  · intro i0 m hi0 hm
    rw [hP] at hm
    unfold parseMoveIndexStage at hm
    rw [if_neg hidx'] at hm
    simp only [idxSubstr, hrev, if_true, hi0] at hm
    split_ifs at hm
    injection hm with hm'
    rw [← hm']
    simp [finalIndex, hrev]

/-- Witness for C5: `"1r0'"` on the 5×5 board resolves to index `4`. -/
theorem c5_reverse_index_witness :
    (⟨HorizontalAxis, 4, 1⟩ : Move).Index = dimension (mkSolved 5 5) HorizontalAxis - 1 - 0 := by
  have h := c5_reverse_index "1r0'".toList (mkSolved 5 5) 1 HorizontalAxis 1
    (by decide) (by decide) (by decide) (by decide) (by decide) (by decide) (by decide)
  exact h.2.1 0 ⟨HorizontalAxis, 4, 1⟩ (by decide) h.2.2

/-- C4: `ParseMove` returns an error exactly on: the empty string, a string
with no alphabetic character, a first alphabetic character other than
r/R/c/C, an empty amount substring, a non-numeric or zero amount, an empty
or non-numeric index substring, and an index that after the optional
reverse-index transform lies outside `[0, dimension)`. -/
theorem c4_parse_error_conditions (input : List Char) (b : Board) :
    (∃ e, ParseMove input b = .error e) ↔
      input = [] ∨
      (∀ c ∈ input, c.isAlpha = false) ∨
      ∃ ai, input.findIdx? Char.isAlpha = some ai ∧
        (parseAxisChar (input.getD ai ' ') = none ∨
         input.take ai = [] ∨
         atoi (input.take ai) = none ∨
         atoi (input.take ai) = some 0 ∨
         input.drop (ai + 1) = [] ∨
         atoi (idxSubstr input ai) = none ∨
         ∃ axis i0, parseAxisChar (input.getD ai ' ') = some axis ∧
           atoi (idxSubstr input ai) = some i0 ∧
           ¬(0 ≤ finalIndex input b axis i0 ∧
             finalIndex input b axis i0 < dimension b axis)) := by
  by_cases hempty : input = []
  · subst hempty
    exact ⟨fun _ => Or.inl rfl, fun _ => ⟨.emptyInput, rfl⟩⟩
  · have hne : ¬input.length = 0 := by simpa [List.length_eq_zero] using hempty
    cases hfi : input.findIdx? Char.isAlpha with
    | none =>
      have herr : ParseMove input b = .error .missingAxis := by
        unfold ParseMove
        simp only [if_neg hne, hfi]
      exact ⟨fun _ => Or.inr (Or.inl (List.findIdx?_eq_none_iff.mp hfi)), fun _ => ⟨_, herr⟩⟩
    | some ai =>
      cases hax : parseAxisChar (input.getD ai ' ') with
      | none =>
        have herr : ParseMove input b = .error .invalidAxis := by
          unfold ParseMove
          simp only [if_neg hne, hfi, hax]
        exact ⟨fun _ => Or.inr (Or.inr ⟨ai, rfl, Or.inl hax⟩), fun _ => ⟨_, herr⟩⟩
      | some axis =>
        have hP1 : ParseMove input b = parseMoveAmountStage input b ai axis :=
          ParseMove_stages input b ai axis hne hfi hax
        by_cases htk : (input.take ai).length = 0
        · have herr : ParseMove input b = .error .missingAmount := by
            rw [hP1]
            unfold parseMoveAmountStage
            rw [if_pos htk]
          exact ⟨fun _ =>
            Or.inr (Or.inr ⟨ai, rfl, Or.inr (Or.inl (List.length_eq_zero.mp htk))⟩),
            fun _ => ⟨_, herr⟩⟩
        · cases hamt : atoi (input.take ai) with
          | none =>
            have herr : ParseMove input b = .error .invalidAmount := by
              rw [hP1]
              unfold parseMoveAmountStage
              simp only [if_neg htk, hamt]
            exact ⟨fun _ =>
              Or.inr (Or.inr ⟨ai, rfl, Or.inr (Or.inr (Or.inl hamt))⟩),
              fun _ => ⟨_, herr⟩⟩
          | some amount =>
            by_cases hz : amount = 0
            · subst hz
              have herr : ParseMove input b = .error .zeroAmount := by
                rw [hP1]
                unfold parseMoveAmountStage
                simp only [if_neg htk, hamt]
                simp
              exact ⟨fun _ =>
                Or.inr (Or.inr ⟨ai, rfl, Or.inr (Or.inr (Or.inr (Or.inl hamt)))⟩),
                fun _ => ⟨_, herr⟩⟩
            · have hP2 : ParseMove input b = parseMoveIndexStage input b ai axis amount := by
                rw [hP1, parseMoveAmountStage_eq input b ai axis amount htk hamt hz]
              by_cases hdrop : (input.drop (ai + 1)).length = 0
              · have herr : ParseMove input b = .error .missingIndex := by
                  rw [hP2]
                  unfold parseMoveIndexStage
                  rw [if_pos hdrop]
                exact ⟨fun _ =>
                  Or.inr (Or.inr ⟨ai, rfl,
                    Or.inr (Or.inr (Or.inr (Or.inr (Or.inl (List.length_eq_zero.mp hdrop)))))⟩),
                  fun _ => ⟨_, herr⟩⟩
              · cases hidxa : atoi (idxSubstr input ai) with
                | none =>
                  have herr : ParseMove input b = .error .invalidIndex := by
                    rw [hP2]
                    unfold parseMoveIndexStage
                    simp only [if_neg hdrop, hidxa]
                  exact ⟨fun _ =>
                    Or.inr (Or.inr ⟨ai, rfl,
                      Or.inr (Or.inr (Or.inr (Or.inr (Or.inr (Or.inl hidxa)))))⟩),
                    fun _ => ⟨_, herr⟩⟩
                | some i0 =>
                  by_cases hneg : finalIndex input b axis i0 < 0
                  · have herr : ParseMove input b = .error .negativeIndex := by
                      rw [hP2]
                      unfold parseMoveIndexStage
                      simp only [if_neg hdrop, hidxa, if_pos hneg]
                    refine ⟨fun _ =>
                      Or.inr (Or.inr ⟨ai, rfl,
                        Or.inr (Or.inr (Or.inr (Or.inr (Or.inr (Or.inr
                          ⟨axis, i0, hax, hidxa, fun hcon => ?_⟩)))))⟩),
                      fun _ => ⟨_, herr⟩⟩
                    omega
                  · by_cases hbig : dimension b axis ≤ finalIndex input b axis i0
                    · have herr : ParseMove input b = .error .indexTooLarge := by
                        rw [hP2]
                        unfold parseMoveIndexStage
                        simp only [if_neg hdrop, hidxa, if_neg hneg, if_pos hbig]
                      refine ⟨fun _ =>
                        Or.inr (Or.inr ⟨ai, rfl,
                          Or.inr (Or.inr (Or.inr (Or.inr (Or.inr (Or.inr
                            ⟨axis, i0, hax, hidxa, fun hcon => ?_⟩)))))⟩),
                        fun _ => ⟨_, herr⟩⟩
                      omega
                    · have hok : ParseMove input b =
                          .ok ⟨axis, finalIndex input b axis i0, amount⟩ := by
                        rw [hP2]
                        unfold parseMoveIndexStage
                        simp only [if_neg hdrop, hidxa, if_neg hneg, if_neg hbig]
                      constructor
                      · rintro ⟨e, he⟩
                        rw [hok] at he
                        exact absurd he (by simp)
                      · intro hrhs
                        rcases hrhs with h | h | ⟨ai', hfi', hdisj⟩
                        · exact absurd h hempty
                        · have hnone : input.findIdx? Char.isAlpha = none :=
                            List.findIdx?_eq_none_iff.mpr h
                          rw [hfi] at hnone
                          exact absurd hnone (by simp)
                        · obtain rfl : ai' = ai := by injection hfi' with h'; exact h'.symm
                          rcases hdisj with h | h | h | h | h | h |
                            ⟨axis', i0', hax', hidxa', hbounds⟩
                          · rw [hax] at h
                            exact absurd h (by simp)
                          · exact (htk (by rw [h]; rfl)).elim
                          · rw [hamt] at h
                            exact absurd h (by simp)
                          · rw [hamt] at h
                            injection h with h'
                            exact (hz h').elim
                          · exact (hdrop (by rw [h]; rfl)).elim
                          · rw [hidxa] at h
                            exact absurd h (by simp)
                          · rw [hax] at hax'
                            obtain rfl : axis' = axis := by injection hax' with h'; exact h'.symm
                            rw [hidxa] at hidxa'
                            obtain rfl : i0' = i0 := by injection hidxa' with h'; exact h'.symm
                            exact (hbounds ⟨by omega, by omega⟩).elim

/-- Witness for C4: the zero-amount input `"0r0"` is rejected. -/
theorem c4_parse_error_conditions_witness :
    ∃ e, ParseMove "0r0".toList (mkSolved 5 5) = .error e := by
  refine (c4_parse_error_conditions "0r0".toList (mkSolved 5 5)).mpr ?_
  exact Or.inr (Or.inr ⟨1, by decide, Or.inr (Or.inr (Or.inr (Or.inl (by decide))))⟩)

theorem rot_length (f : Bool) (l : List Int) :
    ((if f then rotF else rotB) l).length = l.length := by
  cases f <;> simp [rotF_length, rotB_length]

theorem rot_inv (f : Bool) (l : List Int) :
    (if !f then rotF else rotB) ((if f then rotF else rotB) l) = l := by
  cases f <;> simp [rotB_rotF, rotF_rotB]

theorem zipWith_set_length (idx : Nat) (b : Board) (r : List Int) (h : r.length = b.length) :
    (List.zipWith (fun col v => col.set idx v) b r).length = b.length := by
  rw [List.length_zipWith]
  omega

theorem zipWith_set_cols (idx h : Nat) :
    ∀ (b : Board) (r : List Int), (∀ col ∈ b, col.length = h) →
      ∀ col' ∈ List.zipWith (fun col v => col.set idx v) b r, col'.length = h := by
  intro b
  induction b with
  | nil => intro r _ col' hc; simp at hc
  | cons col bs ih =>
    intro r hcols col' hc
    cases r with
    | nil => simp at hc
    | cons v rs =>
      simp only [List.zipWith_cons_cons, List.mem_cons] at hc
      rcases hc with rfl | hc
      · rw [List.length_set]
        exact hcols col (by simp)
      · exact ih rs (fun c hcm => hcols c (by simp [hcm])) col' hc

theorem row_zipWith_set (idx : Nat) :
    ∀ (b : Board) (r : List Int), r.length = b.length → (∀ col ∈ b, idx < col.length) →
      Board.row (List.zipWith (fun col v => col.set idx v) b r) idx = r := by
  intro b
  induction b with
  | nil =>
    intro r hr _
    rw [List.length_nil] at hr
    rw [List.length_eq_zero.mp hr]
    rfl
  | cons col bs ih =>
    intro r hr hcols
    cases r with
    | nil => simp at hr
    | cons v rs =>
      simp only [List.zipWith_cons_cons, Board.row, List.map_cons]
      rw [getD_set_self col idx v 0 (hcols col (by simp))]
      congr 1
      exact ih rs (by simpa using hr) (fun c hc => hcols c (by simp [hc]))

theorem zipWith_set_set (idx : Nat) :
    ∀ (b : Board) (r1 r2 : List Int), r1.length = b.length →
      List.zipWith (fun col v => col.set idx v)
        (List.zipWith (fun col v => col.set idx v) b r1) r2 =
      List.zipWith (fun col v => col.set idx v) b r2 := by
  intro b
  induction b with
  | nil => intro r1 r2 _; simp
  | cons col bs ih =>
    intro r1 r2 h1
    cases r1 with
    | nil => simp at h1
    | cons v1 rs1 =>
      cases r2 with
      | nil => simp
      | cons v2 rs2 =>
        simp only [List.zipWith_cons_cons]
        rw [List.set_set]
        congr 1
        exact ih rs1 rs2 (by simpa using h1)

theorem zipWith_set_row_self (idx : Nat) :
    ∀ (b : Board), (∀ col ∈ b, idx < col.length) →
      List.zipWith (fun col v => col.set idx v) b (b.row idx) = b := by
  intro b
  induction b with
  | nil => intro _; rfl
  | cons col bs ih =>
    intro hcols
    simp only [Board.row, List.map_cons, List.zipWith_cons_cons]
    rw [set_getD_self col idx (hcols col (by simp)) 0]
    congr 1
    exact ih (fun c hc => hcols c (by simp [hc]))

theorem lineStep_wellFormed (w h : Nat) (axis : Axis) (idx : Nat) (f : Bool) (b : Board)
    (hwf : WellFormed w h b) : WellFormed w h (lineStep axis idx f b) := by
  obtain ⟨hlen, hcols⟩ := hwf
  cases axis with
  | true =>
    show WellFormed w h (lineStep HorizontalAxis idx f b)
    rw [lineStep_horiz]
    have hrlen : ((if f then rotF else rotB) (b.row idx)).length = b.length := by
      rw [rot_length, row_length]
    constructor
    · rw [zipWith_set_length idx b _ hrlen]
      exact hlen
    · exact zipWith_set_cols idx h b _ hcols
  | false =>
    show WellFormed w h (lineStep VerticalAxis idx f b)
    rw [lineStep_vert]
    by_cases hi : idx < b.length
    · constructor
      · rw [List.length_set]
        exact hlen
      · intro col' hc
        rcases List.mem_or_eq_of_mem_set hc with hmem | rfl
        · exact hcols _ hmem
        · rw [rot_length]
          exact hcols _ (getD_mem_of_lt b idx [] hi)
    · rw [List.set_eq_of_length_le (by omega)]
      exact ⟨hlen, hcols⟩

theorem lineStep_inv (w h : Nat) (axis : Axis) (idx : Nat) (f : Bool) (b : Board)
    (hwf : WellFormed w h b) (hidx : axis = HorizontalAxis → idx < h) :
    lineStep axis idx (!f) (lineStep axis idx f b) = b := by
  obtain ⟨hlen, hcols⟩ := hwf
  cases axis with
  | true =>
    have hcols' : ∀ col ∈ b, idx < col.length := fun c hc => by
      rw [hcols c hc]
      exact hidx rfl
    show lineStep HorizontalAxis idx (!f) (lineStep HorizontalAxis idx f b) = b
    rw [lineStep_horiz, lineStep_horiz]
    have hrlen : ((if f then rotF else rotB) (b.row idx)).length = b.length := by
      rw [rot_length, row_length]
    rw [row_zipWith_set idx b _ hrlen hcols']
    rw [rot_inv f (b.row idx)]
    rw [zipWith_set_set idx b _ _ hrlen]
    exact zipWith_set_row_self idx b hcols'
  | false =>
    show lineStep VerticalAxis idx (!f) (lineStep VerticalAxis idx f b) = b
    rw [lineStep_vert, lineStep_vert]
    by_cases hi : idx < b.length
    · rw [getD_set_self b idx _ [] hi]
      rw [rot_inv f (b.getD idx [])]
      rw [List.set_set]
      exact set_getD_self b idx hi []
    · have hle : b.length ≤ idx := by omega
      rw [List.set_eq_of_length_le (by rw [List.length_set]; exact hle)]
      rw [List.set_eq_of_length_le hle]

theorem iterate_preserves {P : Board → Prop} (f : Board → Board)
    (hP : ∀ b, P b → P (f b)) : ∀ (n : Nat) (b : Board), P b → P (Nat.iterate f n b) := by
  intro n
  induction n with
  | zero => intro b hb; exact hb
  | succ k ih =>
    intro b hb
    rw [Function.iterate_succ_apply]
    exact ih (f b) (hP b hb)

theorem iterate_inverse {P : Board → Prop} (f g : Board → Board)
    (hfg : ∀ b, P b → g (f b) = b) (hP : ∀ b, P b → P (f b)) :
    ∀ (n : Nat) (b : Board), P b → Nat.iterate g n (Nat.iterate f n b) = b := by
  intro n
  induction n with
  | zero => intro b _; rfl
  | succ k ih =>
    intro b hb
    rw [Function.iterate_succ_apply' f k b]
    rw [Function.iterate_succ_apply g k (f (Nat.iterate f k b))]
    rw [hfg _ (iterate_preserves f hP k b hb)]
    exact ih b hb

/-- C2: applying a validated move and then the move with the same axis and
index but negated amount restores every cell of the grid (the two boards are
equal). -/
theorem c2_inverse_restores (w h : Nat) (b : Board) (m : Move)
    (hwf : WellFormed w h b) (hv : MoveValid w h m) :
    (((b.MakeMove m).1).MakeMove ⟨m.Axis, m.Index, -m.Amount⟩).1 = b := by
  obtain ⟨hv0, hvd⟩ := hv
  have hidx : m.Axis = HorizontalAxis → m.Index.toNat < h := by
    intro ha
    rw [if_pos ha] at hvd
    omega
  show Nat.iterate (lineStep m.Axis m.Index.toNat (decide (-m.Amount > 0))) (-m.Amount).natAbs
      (Nat.iterate (lineStep m.Axis m.Index.toNat (decide (m.Amount > 0))) m.Amount.natAbs b)
    = b
  have hnabs : (-m.Amount).natAbs = m.Amount.natAbs := by simp
  rcases lt_trichotomy m.Amount 0 with hneg | hzero | hpos
  · have h1 : decide (m.Amount > 0) = false := by simp [hneg]; omega
    have h2 : decide (-m.Amount > 0) = true := by simp; omega
    rw [hnabs, h1, h2]
    have hinv : ∀ b', WellFormed w h b' →
        lineStep m.Axis m.Index.toNat true (lineStep m.Axis m.Index.toNat false b') = b' :=
      fun b' hb' => by
        simpa using lineStep_inv w h m.Axis m.Index.toNat false b' hb' hidx
    exact iterate_inverse _ _ hinv
      (fun b' hb' => lineStep_wellFormed w h _ _ _ b' hb') m.Amount.natAbs b hwf
  · rw [hzero]
    simp
  · have h1 : decide (m.Amount > 0) = true := by simp [hpos]
    have h2 : decide (-m.Amount > 0) = false := by simp; omega
    rw [hnabs, h1, h2]
    have hinv : ∀ b', WellFormed w h b' →
        lineStep m.Axis m.Index.toNat false (lineStep m.Axis m.Index.toNat true b') = b' :=
      fun b' hb' => by
        simpa using lineStep_inv w h m.Axis m.Index.toNat true b' hb' hidx
    exact iterate_inverse _ _ hinv
      (fun b' hb' => lineStep_wellFormed w h _ _ _ b' hb') m.Amount.natAbs b hwf

/-- Witness for C2 on the solved 2×2 board and the move `1R0`. -/
theorem c2_inverse_restores_witness :
    ((((mkSolved 2 2).MakeMove ⟨HorizontalAxis, 0, 1⟩).1).MakeMove
      ⟨HorizontalAxis, 0, -1⟩).1 = mkSolved 2 2 := by
  have h := c2_inverse_restores 2 2 (mkSolved 2 2) ⟨HorizontalAxis, 0, 1⟩
    (by decide) (by decide)
  exact h

theorem lineStep_frame (axis : Axis) (idx : Nat) (f : Bool) (b : Board) (x y : Nat)
    (hy : axis = HorizontalAxis → y ≠ idx) (hx : axis = VerticalAxis → x ≠ idx) :
    (lineStep axis idx f b).getCell x y = b.getCell x y := by
  cases axis with
  | true =>
    have hy' : y ≠ idx := hy rfl
    show (lineStep HorizontalAxis idx f b).getCell x y = b.getCell x y
    rw [lineStep_horiz]
    unfold Board.getCell
    have hrlen : ((if f then rotF else rotB) (b.row idx)).length = b.length := by
      rw [rot_length, row_length]
    by_cases hxb : x < b.length
    · rw [zipWith_set_getD b idx _ x hxb (by omega)]
      exact getD_set_ne _ idx y _ 0 (Ne.symm hy')
    · have h1 : (List.zipWith (fun col v => col.set idx v) b
          ((if f then rotF else rotB) (b.row idx))).getD x [] = [] :=
        List.getD_eq_default _ _ (by rw [List.length_zipWith]; omega)
      have h2 : b.getD x [] = [] := List.getD_eq_default _ _ (by omega)
      rw [h1, h2]
  | false =>
    have hx' : x ≠ idx := hx rfl
    show (lineStep VerticalAxis idx f b).getCell x y = b.getCell x y
    rw [lineStep_vert]
    unfold Board.getCell
    rw [getD_set_ne b idx x _ [] (Ne.symm hx')]

/-- C10: `MakeMove` modifies only the target line: every cell whose row
differs from the index of a Row move (respectively whose column differs from
the index of a Column move) holds the same value afterwards. -/
theorem c10_frame_effect (b : Board) (m : Move) (x y : Nat)
    (hy : m.Axis = HorizontalAxis → y ≠ m.Index.toNat)
    (hx : m.Axis = VerticalAxis → x ≠ m.Index.toNat) :
    ((b.MakeMove m).1).getCell x y = b.getCell x y := by
  show (Nat.iterate (lineStep m.Axis m.Index.toNat (decide (m.Amount > 0)))
      m.Amount.natAbs b).getCell x y = b.getCell x y
  have key : ∀ (n : Nat) (b' : Board),
      (Nat.iterate (lineStep m.Axis m.Index.toNat (decide (m.Amount > 0))) n b').getCell x y
        = b'.getCell x y := by
    intro n
    induction n with
    | zero => intro b'; rfl
    | succ k ih =>
      intro b'
      rw [Function.iterate_succ_apply]
      rw [ih (lineStep m.Axis m.Index.toNat (decide (m.Amount > 0)) b')]
      exact lineStep_frame m.Axis m.Index.toNat _ b' x y hy hx
  exact key m.Amount.natAbs b

/-- Witness for C10: the move `1R0` on the solved 3×3 board leaves the cell
`(1, 1)` unchanged. -/
theorem c10_frame_effect_witness :
    (((mkSolved 3 3).MakeMove ⟨HorizontalAxis, 0, 1⟩).1).getCell 1 1 =
      (mkSolved 3 3).getCell 1 1 := by
  exact c10_frame_effect (mkSolved 3 3) ⟨HorizontalAxis, 0, 1⟩ 1 1
    (by decide) (by decide)

theorem cells_cons (col : List Int) (bs : Board) :
    Board.cells (col :: bs) = (col : Multiset Int) + bs.cells := by
  simp [Board.cells]

theorem rotF_cells (l : List Int) : ((rotF l : List Int) : Multiset Int) = (l : Multiset Int) := by
  rcases List.eq_nil_or_concat l with rfl | ⟨xs, x, rfl⟩
  · rfl
  · simp only [List.concat_eq_append, rotF_concat]
    exact (Multiset.coe_eq_coe.mpr (List.perm_append_singleton x xs)).symm

theorem rotB_cells (l : List Int) : ((rotB l : List Int) : Multiset Int) = (l : Multiset Int) := by
  cases l with
  | nil => rfl
  | cons x xs =>
    rw [rotB_cons]
    exact Multiset.coe_eq_coe.mpr (List.perm_append_singleton x xs)

theorem rot_cells (f : Bool) (l : List Int) :
    (((if f then rotF else rotB) l : List Int) : Multiset Int) = (l : Multiset Int) := by
  cases f
  · exact rotB_cells l
  · exact rotF_cells l

theorem set_cells (l : List Int) :
    ∀ (i : Nat) (v : Int), i < l.length →
      ((l.set i v : List Int) : Multiset Int) + {l.getD i 0} = (l : Multiset Int) + {v} := by
  induction l with
  | nil => intro i v h; simp at h
  | cons x xs ih =>
    intro i v h
    cases i with
    | zero =>
      simp only [List.set_cons_zero, List.getD_cons_zero]
      rw [show ((v :: xs : List Int) : Multiset Int) = {v} + (xs : Multiset Int) by
            rw [Multiset.singleton_add]; rfl,
          show ((x :: xs : List Int) : Multiset Int) = {x} + (xs : Multiset Int) by
            rw [Multiset.singleton_add]; rfl]
      abel
    | succ j =>
      simp only [List.set_cons_succ, List.getD_cons_succ]
      rw [show ((x :: xs.set j v : List Int) : Multiset Int)
            = {x} + ((xs.set j v : List Int) : Multiset Int) by
            rw [Multiset.singleton_add]; rfl,
          show ((x :: xs : List Int) : Multiset Int) = {x} + (xs : Multiset Int) by
            rw [Multiset.singleton_add]; rfl]
      have hj := ih j v (by simpa using h)
      calc ({x} + ((xs.set j v : List Int) : Multiset Int)) + {xs.getD j 0}
          = {x} + (((xs.set j v : List Int) : Multiset Int) + {xs.getD j 0}) := by abel
        _ = {x} + ((xs : Multiset Int) + {v}) := by rw [hj]
        _ = ({x} + (xs : Multiset Int)) + {v} := by abel

theorem cells_set_col (b : Board) :
    ∀ (i : Nat) (c : List Int), i < b.length →
      Board.cells (b.set i c) + ((b.getD i [] : List Int) : Multiset Int)
        = b.cells + (c : Multiset Int) := by
  induction b with
  | nil => intro i c h; simp at h
  | cons col bs ih =>
    intro i c h
    cases i with
    | zero =>
      simp only [List.set_cons_zero, List.getD_cons_zero]
      rw [cells_cons, cells_cons]
      abel
    | succ j =>
      simp only [List.set_cons_succ, List.getD_cons_succ]
      rw [cells_cons, cells_cons]
      have hj := ih j c (by simpa using h)
      calc ((col : Multiset Int) + Board.cells (bs.set j c))
              + ((bs.getD j [] : List Int) : Multiset Int)
          = (col : Multiset Int)
              + (Board.cells (bs.set j c) + ((bs.getD j [] : List Int) : Multiset Int)) := by
            abel
        _ = (col : Multiset Int) + (Board.cells bs + (c : Multiset Int)) := by rw [hj]
        _ = ((col : Multiset Int) + Board.cells bs) + (c : Multiset Int) := by abel

theorem zipWith_set_cells (idx : Nat) :
    ∀ (b : Board) (r : List Int), r.length = b.length → (∀ col ∈ b, idx < col.length) →
      Board.cells (List.zipWith (fun col v => col.set idx v) b r)
        + ((b.row idx : List Int) : Multiset Int)
        = b.cells + (r : Multiset Int) := by
  intro b
  induction b with
  | nil =>
    intro r hr _
    obtain rfl : r = [] := List.length_eq_zero.mp (by simpa using hr)
    rfl
  | cons col bs ih =>
    intro r hr hcols
    cases r with
    | nil => simp at hr
    | cons v rs =>
      simp only [List.zipWith_cons_cons]
      have h1 := set_cells col idx v (hcols col (by simp))
      have h2 := ih rs (by simpa using hr) (fun c hc => hcols c (by simp [hc]))
      rw [cells_cons, cells_cons]
      rw [show Board.row (col :: bs) idx = col.getD idx 0 :: Board.row bs idx from rfl]
      rw [show ((col.getD idx 0 :: Board.row bs idx : List Int) : Multiset Int)
            = {col.getD idx 0} + ((Board.row bs idx : List Int) : Multiset Int) by
            rw [Multiset.singleton_add]; rfl,
          show ((v :: rs : List Int) : Multiset Int) = {v} + (rs : Multiset Int) by
            rw [Multiset.singleton_add]; rfl]
      calc (((col.set idx v : List Int) : Multiset Int)
              + Board.cells (List.zipWith (fun col v => col.set idx v) bs rs))
            + ({col.getD idx 0} + ((Board.row bs idx : List Int) : Multiset Int))
          = (((col.set idx v : List Int) : Multiset Int) + {col.getD idx 0})
            + (Board.cells (List.zipWith (fun col v => col.set idx v) bs rs)
              + ((Board.row bs idx : List Int) : Multiset Int)) := by abel
        _ = ((col : Multiset Int) + {v}) + (Board.cells bs + (rs : Multiset Int)) := by
            rw [h1, h2]
        _ = ((col : Multiset Int) + Board.cells bs) + ({v} + (rs : Multiset Int)) := by abel

theorem cells_lineStep (w h : Nat) (axis : Axis) (idx : Nat) (f : Bool) (b : Board)
    (hwf : WellFormed w h b)
    (hidx : (axis = HorizontalAxis → idx < h) ∧ (axis = VerticalAxis → idx < w)) :
    (lineStep axis idx f b).cells = b.cells := by
  obtain ⟨hlen, hcols⟩ := hwf
  cases axis with
  | true =>
    show (lineStep HorizontalAxis idx f b).cells = b.cells
    rw [lineStep_horiz]
    have hcols' : ∀ col ∈ b, idx < col.length := fun c hc => by
      rw [hcols c hc]
      exact hidx.1 rfl
    have key := zipWith_set_cells idx b ((if f then rotF else rotB) (b.row idx))
      (by rw [rot_length, row_length]) hcols'
    rw [rot_cells] at key
    exact add_right_cancel key
  | false =>
    show (lineStep VerticalAxis idx f b).cells = b.cells
    rw [lineStep_vert]
    have hi : idx < b.length := by rw [hlen]; exact hidx.2 rfl
    have key := cells_set_col b idx ((if f then rotF else rotB) (b.getD idx [])) hi
    rw [rot_cells] at key
    exact add_right_cancel key

theorem sum_map_singleton (l : List Nat) (g : Nat → Int) :
    (l.map fun a => ({g a} : Multiset Int)).sum = ((l.map g : List Int) : Multiset Int) := by
  induction l with
  | nil => rfl
  | cons a as ih =>
    simp only [List.map_cons, List.sum_cons, ih]
    rw [Multiset.singleton_add]
    rfl

theorem cells_map_range (F : Nat → List Int) (w : Nat) :
    Board.cells (List.map F (List.range w))
      = ((List.range w).map fun (x : Nat) => ((F x : List Int) : Multiset Int)).sum := by
  unfold Board.cells
  rw [List.map_map]
  rfl

theorem cells_mkSolved (w : Nat) : ∀ (h : Nat), (mkSolved w h).cells = solvedCells w h := by
  intro h
  induction h with
  | zero =>
    show Board.cells (mkSolved w 0) = solvedCells w 0
    rw [show mkSolved w 0 = List.map (fun (_ : Nat) => ([] : List Int)) (List.range w) from rfl]
    rw [cells_map_range]
    simp [solvedCells]
  | succ k ih =>
    rw [show mkSolved w (k + 1)
        = List.map (fun (x : Nat) =>
            ((List.range k).map fun (y : Nat) => (x : Int) + (y : Int) * (w : Int) + 1)
              ++ [(x : Int) + (k : Int) * (w : Int) + 1]) (List.range w) by
      unfold mkSolved
      refine List.map_eq_map_iff.mpr ?_
      intro x _
      rw [List.range_succ, List.map_append]
      rfl]
    rw [cells_map_range]
    have hsplit : ((List.range w).map fun (x : Nat) =>
        ((((List.range k).map fun (y : Nat) => (x : Int) + (y : Int) * (w : Int) + 1)
          ++ [(x : Int) + (k : Int) * (w : Int) + 1] : List Int) : Multiset Int))
      = (List.range w).map fun (x : Nat) =>
          (((List.range k).map fun (y : Nat) =>
            (x : Int) + (y : Int) * (w : Int) + 1 : List Int) : Multiset Int)
          + {(x : Int) + (k : Int) * (w : Int) + 1} := by
      refine List.map_eq_map_iff.mpr ?_
      intro x _
      rfl
    rw [hsplit, List.sum_map_add]
    rw [sum_map_singleton (List.range w) (fun (x : Nat) => (x : Int) + (k : Int) * (w : Int) + 1)]
    have hfirst : ((List.range w).map fun (x : Nat) =>
        (((List.range k).map fun (y : Nat) =>
          (x : Int) + (y : Int) * (w : Int) + 1 : List Int) : Multiset Int)).sum
        = Board.cells (mkSolved w k) := (cells_map_range _ w).symm
    rw [hfirst, ih]
    have hsolved : solvedCells w (k + 1)
        = solvedCells w k
          + (((List.range w).map fun (i : Nat) => ((w * k + i : Nat) : Int) + 1 : List Int)
              : Multiset Int) := by
      unfold solvedCells
      rw [show w * (k + 1) = w * k + w from by ring, List.range_add, List.map_append,
        List.map_map]
      rfl
    rw [hsolved]
    congr 1
    refine congrArg _ (List.map_eq_map_iff.mpr ?_)
    intro x hx
    push_cast
    ring

theorem setCell_wellFormed (w h : Nat) (b : Board) (x y : Nat) (v : Int)
    (hwf : WellFormed w h b) : WellFormed w h (b.setCell x y v) := by
  obtain ⟨hlen, hcols⟩ := hwf
  unfold Board.setCell
  by_cases hx : x < b.length
  · constructor
    · rw [List.length_set]
      exact hlen
    · intro col' hc
      rcases List.mem_or_eq_of_mem_set hc with hmem | rfl
      · exact hcols _ hmem
      · rw [List.length_set]
        exact hcols _ (getD_mem_of_lt b x [] hx)
  · rw [List.set_eq_of_length_le (by omega)]
    exact ⟨hlen, hcols⟩

theorem setCell_cells (w h : Nat) (b : Board) (x y : Nat) (v : Int)
    (hwf : WellFormed w h b) (hx : x < w) (hy : y < h) :
    (b.setCell x y v).cells + {b.getCell x y} = b.cells + {v} := by
  obtain ⟨hlen, hcols⟩ := hwf
  have hxb : x < b.length := by omega
  have hcl : (b.getD x []).length = h := hcols _ (getD_mem_of_lt b x [] hxb)
  have h1 := cells_set_col b x ((b.getD x []).set y v) hxb
  have h2 := set_cells (b.getD x []) y v (by omega)
  have key : (Board.cells (b.set x ((b.getD x []).set y v)) + {(b.getD x []).getD y 0})
      + ((b.getD x [] : List Int) : Multiset Int)
      = (b.cells + {v}) + ((b.getD x [] : List Int) : Multiset Int) := by
    calc (Board.cells (b.set x ((b.getD x []).set y v)) + {(b.getD x []).getD y 0})
          + ((b.getD x [] : List Int) : Multiset Int)
        = (Board.cells (b.set x ((b.getD x []).set y v))
            + ((b.getD x [] : List Int) : Multiset Int)) + {(b.getD x []).getD y 0} := by abel
      _ = (b.cells + (((b.getD x []).set y v : List Int) : Multiset Int))
            + {(b.getD x []).getD y 0} := by rw [h1]
      _ = b.cells + ((((b.getD x []).set y v : List Int) : Multiset Int)
            + {(b.getD x []).getD y 0}) := by abel
      _ = b.cells + (((b.getD x [] : List Int) : Multiset Int) + {v}) := by rw [h2]
      _ = (b.cells + {v}) + ((b.getD x [] : List Int) : Multiset Int) := by abel
  exact add_right_cancel key

theorem getCell_setCell_self_val (b : Board) (x1 y1 x2 y2 : Nat)
    (hx1 : x1 < b.length) (hy1 : y1 < (b.getD x1 []).length) :
    (b.setCell x1 y1 (b.getCell x2 y2)).getCell x2 y2 = b.getCell x2 y2 := by
  unfold Board.setCell Board.getCell
  by_cases hx : x2 = x1
  · subst hx
    rw [getD_set_self b x2 _ [] hx1]
    by_cases hyy : y2 = y1
    · subst hyy
      rw [getD_set_self _ y2 _ 0 hy1]
    · rw [getD_set_ne _ y1 y2 _ 0 (fun hcon => hyy hcon.symm)]
  · rw [getD_set_ne b x1 x2 _ [] (fun hcon => hx hcon.symm)]

theorem swapCells_inv (w h : Nat) (b : Board) (x1 y1 x2 y2 : Nat)
    (hwf : WellFormed w h b) (hx1 : x1 < w) (hy1 : y1 < h) (hx2 : x2 < w) (hy2 : y2 < h) :
    (swapCells b x1 y1 x2 y2).cells = b.cells ∧ WellFormed w h (swapCells b x1 y1 x2 y2) := by
  have hx1b : x1 < b.length := by
    have := hwf.1
    omega
  have hy1c : y1 < (b.getD x1 []).length := by
    rw [hwf.2 _ (getD_mem_of_lt b x1 [] hx1b)]
    omega
  have hwf1 : WellFormed w h (b.setCell x1 y1 (b.getCell x2 y2)) :=
    setCell_wellFormed w h b x1 y1 _ hwf
  have hA := setCell_cells w h b x1 y1 (b.getCell x2 y2) hwf hx1 hy1
  have hGet := getCell_setCell_self_val b x1 y1 x2 y2 hx1b hy1c
  have hB := setCell_cells w h (b.setCell x1 y1 (b.getCell x2 y2)) x2 y2 (b.getCell x1 y1)
    hwf1 hx2 hy2
  rw [hGet] at hB
  constructor
  · have key : (swapCells b x1 y1 x2 y2).cells + {b.getCell x2 y2}
        = b.cells + {b.getCell x2 y2} := by
      calc (swapCells b x1 y1 x2 y2).cells + {b.getCell x2 y2}
          = ((b.setCell x1 y1 (b.getCell x2 y2)).setCell x2 y2 (b.getCell x1 y1)).cells
            + {b.getCell x2 y2} := rfl
        _ = (b.setCell x1 y1 (b.getCell x2 y2)).cells + {b.getCell x1 y1} := hB
        _ = b.cells + {b.getCell x2 y2} := hA
    exact add_right_cancel key
  · exact setCell_wellFormed w h _ x2 y2 _ hwf1

theorem foldl_inv {α : Type _} (g : Board → α → Board) (Q : Board → Prop) :
    ∀ (l : List α) (b : Board), Q b → (∀ b' a, a ∈ l → Q b' → Q (g b' a)) →
      Q (l.foldl g b) := by
  intro l
  induction l with
  | nil => intro b hb _; exact hb
  | cons a as ih =>
    intro b hb hstep
    rw [List.foldl_cons]
    exact ih (g b a) (hstep b a (by simp) hb)
      (fun b' a' ha' hb' => hstep b' a' (by simp [ha']) hb')

theorem width_of_wf (w h : Nat) (b : Board) (hwf : WellFormed w h b) : b.width = w := hwf.1

theorem height_of_wf (w h : Nat) (b : Board) (hwf : WellFormed w h b) (hw : 0 < w) :
    b.height = h := by
  unfold Board.height
  have h0 : 0 < b.length := by
    have := hwf.1
    omega
  exact hwf.2 _ (getD_mem_of_lt b 0 [] h0)

theorem makeMove_inv (w h : Nat) (b : Board) (m : Move) (hwf : WellFormed w h b)
    (hv : MoveValid w h m) :
    (b.MakeMove m).1.cells = b.cells ∧ WellFormed w h (b.MakeMove m).1 := by
  obtain ⟨hv0, hvd⟩ := hv
  have hidx : (m.Axis = HorizontalAxis → m.Index.toNat < h) ∧
      (m.Axis = VerticalAxis → m.Index.toNat < w) := by
    constructor
    · intro ha
      rw [if_pos ha] at hvd
      omega
    · intro ha
      rw [ha] at hvd
      rw [if_neg (by decide : ¬(VerticalAxis = HorizontalAxis))] at hvd
      omega
  have key : ∀ (n : Nat) (b' : Board), WellFormed w h b' →
      (Nat.iterate (lineStep m.Axis m.Index.toNat (decide (m.Amount > 0))) n b').cells
        = b'.cells
      ∧ WellFormed w h
          (Nat.iterate (lineStep m.Axis m.Index.toNat (decide (m.Amount > 0))) n b') := by
    intro n
    induction n with
    | zero => intro b' hb'; exact ⟨rfl, hb'⟩
    | succ k ih =>
      intro b' hb'
      rw [Function.iterate_succ_apply]
      have hstep := cells_lineStep w h m.Axis m.Index.toNat (decide (m.Amount > 0)) b' hb' hidx
      have hwf1 := lineStep_wellFormed w h m.Axis m.Index.toNat (decide (m.Amount > 0)) b' hb'
      obtain ⟨hc, hw2⟩ := ih _ hwf1
      exact ⟨hc.trans hstep, hw2⟩
  exact key m.Amount.natAbs b hwf

theorem fastShuffle_inv (w h : Nat) (b : Board) (pick : Nat → Nat → Nat × Nat)
    (hwf : WellFormed w h b) (hw : 0 < w)
    (hpick : ∀ x1 y1, x1 < w → y1 < h → (pick x1 y1).1 < w ∧ (pick x1 y1).2 < h) :
    (b.FastShuffle pick).cells = b.cells ∧ WellFormed w h (b.FastShuffle pick) := by
  unfold Board.FastShuffle
  rw [width_of_wf w h b hwf, height_of_wf w h b hwf hw]
  refine foldl_inv _ (fun b' => b'.cells = b.cells ∧ WellFormed w h b')
    (List.range w) b ⟨rfl, hwf⟩ ?_
  intro b1 x1 hx1 hb1
  refine foldl_inv _ (fun b' => b'.cells = b.cells ∧ WellFormed w h b')
    (List.range h) b1 hb1 ?_
  intro b2 y1 hy1 hb2
  have hx1' : x1 < w := List.mem_range.mp hx1
  have hy1' : y1 < h := List.mem_range.mp hy1
  obtain ⟨hp1, hp2⟩ := hpick x1 y1 hx1' hy1'
  have := swapCells_inv w h b2 x1 y1 (pick x1 y1).1 (pick x1 y1).2 hb2.2 hx1' hy1' hp1 hp2
  exact ⟨this.1.trans hb2.1, this.2⟩

theorem shuffle_inv (w h : Nat) (b : Board) (gen : Nat → Move) (iters : Int)
    (hwf : WellFormed w h b) (hgen : ∀ i, MoveValid w h (gen i)) :
    (b.Shuffle gen iters).1.cells = b.cells ∧ WellFormed w h (b.Shuffle gen iters).1 := by
  refine foldl_inv _ (fun b' => b'.cells = b.cells ∧ WellFormed w h b') _ b ⟨rfl, hwf⟩ ?_
  intro b' i _ hb'
  have := makeMove_inv w h b' (gen i) hb'.2 (hgen i)
  exact ⟨this.1.trans hb'.1, this.2⟩

theorem reset_inv (w h : Nat) (b : Board) (hwf : WellFormed w h b) (hw : 0 < w) :
    b.Reset.cells = solvedCells w h ∧ WellFormed w h b.Reset := by
  unfold Board.Reset
  rw [width_of_wf w h b hwf, height_of_wf w h b hwf hw]
  exact ⟨cells_mkSolved w h, wellFormed_mkSolved w h⟩

/-- The C3 invariant: the board is a `w × h` rectangle whose cell values form
exactly the multiset `{1, …, w·h}`. -/
def BoardInvariant (w h : Nat) (b : Board) : Prop :=
  WellFormed w h b ∧ b.cells = solvedCells w h

/-- C3: a freshly created board carries each value of `{1, …, w·h}` exactly
once, and this invariant is preserved by `Reset`, by every valid `MakeMove`,
by `FastShuffle` (for any in-range draws) and by `Shuffle` (for any valid
generated moves). -/
theorem c3_cells_invariant :
    (∀ (w h : Int) (b : Board), NewBoard w h = some b →
      BoardInvariant w.toNat h.toNat b) ∧
    (∀ (w h : Nat) (b : Board), 0 < w → BoardInvariant w h b →
      BoardInvariant w h b.Reset ∧
      (∀ m : Move, MoveValid w h m → BoardInvariant w h (b.MakeMove m).1) ∧
      (∀ pick : Nat → Nat → Nat × Nat,
        (∀ x1 y1, x1 < w → y1 < h → (pick x1 y1).1 < w ∧ (pick x1 y1).2 < h) →
        BoardInvariant w h (b.FastShuffle pick)) ∧
      (∀ (gen : Nat → Move) (iters : Int), (∀ i, MoveValid w h (gen i)) →
        BoardInvariant w h (b.Shuffle gen iters).1)) := by
  constructor
  · intro w h b hb
    unfold NewBoard at hb
    split_ifs at hb with h1 h2
    obtain rfl : mkSolved w.toNat h.toNat = b := by injection hb
    exact ⟨wellFormed_mkSolved _ _, cells_mkSolved _ _⟩
  · intro w h b hw hinv
    obtain ⟨hwf, hcells⟩ := hinv
    refine ⟨?_, ?_, ?_, ?_⟩
    · exact ⟨(reset_inv w h b hwf hw).2, (reset_inv w h b hwf hw).1⟩
    · intro m hm
      have hx := makeMove_inv w h b m hwf hm
      exact ⟨hx.2, hx.1.trans hcells⟩
    · intro pick hpick
      have hx := fastShuffle_inv w h b pick hwf hw hpick
      exact ⟨hx.2, hx.1.trans hcells⟩
    · intro gen iters hgen
      have hx := shuffle_inv w h b gen iters hwf hgen
      exact ⟨hx.2, hx.1.trans hcells⟩

/-- Witness for C3 on the solved 2×2 board. -/
theorem c3_cells_invariant_witness :
    BoardInvariant 2 2 ((mkSolved 2 2).MakeMove ⟨HorizontalAxis, 0, 1⟩).1 ∧
    BoardInvariant 2 2 ((mkSolved 2 2).FastShuffle fun x y => (1 - x, 1 - y)) := by
  have hbase : BoardInvariant 2 2 (mkSolved 2 2) :=
    ⟨wellFormed_mkSolved 2 2, cells_mkSolved 2 2⟩
  have h := c3_cells_invariant.2 2 2 (mkSolved 2 2) (by decide) hbase
  refine ⟨h.2.1 ⟨HorizontalAxis, 0, 1⟩ (by decide), h.2.2.1 (fun x y => (1 - x, 1 - y)) ?_⟩
  intro x1 y1 hx hy
  dsimp only
  constructor <;> omega
